import Mathlib

/-!
Verification of the cli-toolkit sandbox core: jail boundary primitives,
virtual filesystem path resolution, atomic write, runtime cloning, and the
process/pipeline harness.

Go strings are modelled as `List Char` (`GoStr`); the lexical algorithms of
Go's `path/filepath` package on a Unix platform (separator character the
forward slash) are embedded as structurally recursive functions so that the
boundary primitives of `toolkit/jail/path.go` and the path-resolution code
of `toolkit/filesystem/os_fs.go` can be reasoned about by induction.
-/

set_option maxHeartbeats 1000000

abbrev GoStr := List Char

/-- The two-character parent-directory component string. -/
def dd : GoStr := ['.', '.']

/-- Model of Go's `strings.Split(s, "/")`: splitting on the path separator.
`splitSlash "" = [""]`, `splitSlash "/" = ["", ""]`, etc. -/
def consHead (c : Char) : List GoStr → List GoStr
  | [] => [[c]]
  | p :: ps => (c :: p) :: ps

def splitSlash : GoStr → List GoStr
  | [] => [[]]
  | c :: cs => if c = '/' then [] :: splitSlash cs else consHead c (splitSlash cs)

/-- Model of Go's `strings.Join(parts, "/")`. -/
def joinComps : List GoStr → GoStr
  | [] => []
  | p :: ps =>
    match ps with
    | [] => p
    | _ :: _ => p ++ '/' :: joinComps ps

/-- Model of Go's `filepath.IsAbs` on Unix: the path starts with `/`. -/
def isAbs (p : GoStr) : Bool :=
  match p with
  | '/' :: _ => true
  | _ => false

/-- One step of the element-stack processing performed by Go's
`filepath.Clean`: empty and `.` elements are dropped, `..` pops a preceding
non-`..` element (or is dropped at the root of a rooted path, or kept at the
front of a relative path), anything else is pushed.  The accumulator is the
reversed output so far. -/
def cleanStep (rooted : Bool) (acc : List GoStr) (c : GoStr) : List GoStr :=
  if c = [] ∨ c = ['.'] then acc
  else if c = dd then
    match acc with
    | [] => if rooted then [] else [dd]
    | top :: rest => if top = dd then dd :: top :: rest else rest
  else c :: acc

def cleanComps (rooted : Bool) (l : List GoStr) : List GoStr :=
  (l.foldl (cleanStep rooted) []).reverse

/-- Model of Go's `filepath.Clean` on Unix. -/
def cleanPath (p : GoStr) : GoStr :=
  if p = [] then ['.']
  else
    let rooted := isAbs p
    let comps := cleanComps rooted (splitSlash p)
    if rooted then '/' :: joinComps comps
    else if comps = [] then ['.'] else joinComps comps

/-- Model of Go's two-argument `filepath.Join(a, b)`: the non-empty elements
joined with a separator, then cleaned; empty when both are empty. -/
def joinPath2 (a b : GoStr) : GoStr :=
  if a = [] then (if b = [] then [] else cleanPath b) else cleanPath (a ++ '/' :: b)

/-- A rooted path made of components: `mkAbs ["a","b"] = "/a/b"`,
`mkAbs [] = "/"`. -/
def mkAbs (l : List GoStr) : GoStr := '/' :: joinComps l

/-- The component lists compared by `filepath.Rel`'s scanning loop: an empty
string contributes no components, anything else splits on the separator. -/
def pathSplit (s : GoStr) : List GoStr := if s = [] then [] else splitSlash s

/-- Strip the longest common prefix of two component lists, returning the two
remainders (the state of `filepath.Rel`'s scanning loop when the first
differing elements are reached). -/
def stripCommon : List GoStr → List GoStr → List GoStr × List GoStr
  | a :: as, b :: bs => if a = b then stripCommon as bs else (a :: as, b :: bs)
  | as, bs => (as, bs)

/-- Model of Go's `filepath.Rel(basepath, targpath)` on Unix; `none` models
the error return. -/
def relPath (basepath targpath : GoStr) : Option GoStr :=
  let base0 := cleanPath basepath
  let targ := cleanPath targpath
  if targ = base0 then some ['.']
  else
    let base := if base0 = ['.'] then [] else base0
    if (isAbs base ≠ isAbs targ) then none
    else
      let pr := stripCommon (pathSplit base) (pathSplit targ)
      if pr.1.headD [] = dd then none
      else
        let baseRest := joinComps pr.1
        let targRest := joinComps pr.2
        if baseRest ≠ [] then
          let seps := baseRest.count '/'
          let ups := joinComps (List.replicate (seps + 1) dd)
          some (if targRest = [] then ups else ups ++ '/' :: targRest)
        else some targRest

/-! ## Boundary primitives (`toolkit/jail/path.go`) -/

/-- `jail.RemoveJailPrefix`: strip the jail prefix from a path and re-root
the remainder at `/`; on a failed relative-path computation the cleaned path
is returned unchanged. -/
def stripJail (jailPath path : GoStr) : GoStr :=
  let j := cleanPath jailPath
  let p := cleanPath path
  if j = [] then p
  else
    match relPath j p with
    | none => p
    | some r => joinPath2 ['/'] r

/-- `jail.IsInJail`: whether `path` lies within the jail boundary. -/
def IsInJail (jailPath path : GoStr) : Bool :=
  let j := cleanPath jailPath
  if j = [] ∨ jailPath = [] then true
  else
    let p := cleanPath path
    if ¬ isAbs p then true
    else
      match relPath j p with
      | none => false
      | some r => ! (dd.isPrefixOf r)

/-- `jail.EnsureInJail`: return a path that resides inside the jail when
possible. -/
def EnsureInJail (jailPath p : GoStr) : GoStr :=
  if jailPath = [] then p
  else
    let j := cleanPath jailPath
    if p = [] ∨ p = ['/'] then j
    else
      let pp := cleanPath p
      if IsInJail j pp then pp
      else if ¬ isAbs pp then joinPath2 j pp
      else joinPath2 j pp

/-! ## Host-filesystem oracle and the virtual filesystem (`os_fs.go`) -/

/-- Go whitespace for `strings.TrimSpace` (the Latin-1 portion of
`unicode.IsSpace`; higher space runes do not occur in the claims). -/
def goIsSpace (c : Char) : Bool :=
  c = ' ' ∨ c = '\t' ∨ c = '\n' ∨ c = '\x0b' ∨ c = '\x0c' ∨ c = '\r' ∨
  c = '\x85' ∨ c = '\xa0'

def trimSpace (s : GoStr) : GoStr :=
  ((s.dropWhile goIsSpace).reverse.dropWhile goIsSpace).reverse

/-- Outcome of `os.Stat` on a host path. -/
inductive HostStat
  | notExist
  | dir
  | file
  | statErr
  deriving DecidableEq

/-- Oracle for host-OS calls made by `OsFS` (`os.Stat`, `os.Getwd`).  The
symlink-following branches of `resolveVirtual` are not modelled; the claims
under verification use `followSymlinks = false`. -/
structure HostOracle where
  stat : GoStr → HostStat
  getwd : GoStr

/-- The mutable state of `OsFS`: jail root and working directory. -/
structure OsFSState where
  jail : GoStr
  wd : GoStr
  deriving DecidableEq

/-- `OsFS.ensureInitializedLocked`: lazily initialize an empty working
directory to `/` (jailed) or the process working directory (unjailed). -/
def ensureInitialized (o : HostOracle) (s : OsFSState) : OsFSState :=
  if trimSpace s.wd ≠ [] then s
  else if trimSpace s.jail ≠ [] then { s with wd := ['/'] }
  else { s with wd := cleanPath o.getwd }

/-- `OsFS.hostPath`: translate a virtual path to a host path by prefixing
the jail root (identity when no jail is set). -/
def hostPath (s : OsFSState) (p : GoStr) : GoStr :=
  if s.jail = [] then cleanPath p else cleanPath (joinPath2 s.jail p)

/-- `OsFS.resolveVirtual` with `followSymlinks = false`: lexically resolve a
path against the working directory and check the jail boundary.  Returns the
possibly lazily-initialized state together with the resolved virtual path or
the escape error. -/
def resolveVirtualNF (o : HostOracle) (s : OsFSState) (path : GoStr) :
    OsFSState × Except GoStr GoStr :=
  let s1 := ensureInitialized o s
  let wd := if s1.wd = [] then ['/'] else s1.wd
  let p1 := if trimSpace path = [] ∨ path = ['.'] then wd else path
  let p2 := if isAbs p1 then p1 else joinPath2 wd p1
  let virt := cleanPath p2
  if s1.jail = [] then (s1, Except.ok virt)
  else
    let host := cleanPath (joinPath2 s1.jail virt)
    if IsInJail s1.jail host then (s1, Except.ok virt)
    else (s1, Except.error ("resolve path outside jail: escape attempt".toList))

/-- Error outcomes of `OsFS.Setwd`. -/
inductive SetwdErr
  | escape
  | statError
  | notADirectory
  deriving DecidableEq

/-- `OsFS.Setwd`: resolve the argument, verify an existing host entry is a
directory, and commit the working directory only on success. -/
def SetwdM (o : HostOracle) (s : OsFSState) (path : GoStr) :
    OsFSState × Option SetwdErr :=
  match resolveVirtualNF o s path with
  | (s1, Except.error _) => (s1, some SetwdErr.escape)
  | (s1, Except.ok resolved) =>
    let host := hostPath s1 resolved
    match o.stat host with
    | HostStat.statErr => (s1, some SetwdErr.statError)
    | HostStat.file => (s1, some SetwdErr.notADirectory)
    | HostStat.notExist => ({ s1 with wd := resolved }, none)
    | HostStat.dir => ({ s1 with wd := resolved }, none)

/-! ## Atomic write (`toolkit/filesystem/filesystem.go`) -/

/-- Success/failure of each host step taken by `atomicWriteFile`, plus the
bytes that reach the temporary file when the write step fails midway. -/
structure AtomicOracle where
  mkdirOk : Bool
  createOk : Bool
  writeOk : Bool
  closeOk : Bool
  chmodOk : Bool
  renameOk : Bool
  halfWritten : List Nat
  deriving DecidableEq

/-- Contents of the destination path and of the temporary sibling file
(`none` = absent). -/
structure AtomicState where
  dest : Option (List Nat)
  tmp : Option (List Nat)
  deriving DecidableEq

/-- `atomicWriteFile`: mkdirall, create a temporary sibling, write, close,
best-effort chmod, rename over the destination; the deferred
`os.Remove(tmpName)` clears the temporary file on every exit after creation
(on success the rename has already moved it away).  The boolean result is
`true` when the function returns an error. -/
def atomicWriteFile (o : AtomicOracle) (s : AtomicState) (data : List Nat) :
    AtomicState × Bool :=
  if ¬ o.mkdirOk then (s, true)
  else if ¬ o.createOk then (s, true)
  else
    if ¬ o.writeOk then
      ({ s with tmp := none }, true)
    else if ¬ o.closeOk then
      ({ s with tmp := none }, true)
    else
      -- os.Chmod failure is deliberately ignored (non-fatal).
      if ¬ o.renameOk then
        ({ s with tmp := none }, true)
      else
        ({ dest := some data, tmp := none }, false)

/-! ## Test environment (`toolkit/env`, `part_008`) -/

/-- The in-memory `TestEnv`: jail, home (host side), user, and the backing
key/value map. -/
structure TestEnvData where
  jail : GoStr
  home : GoStr
  user : GoStr
  data : List (GoStr × GoStr)
  deriving DecidableEq

instance : Inhabited TestEnvData := ⟨⟨[], [], [], []⟩⟩

/-- Association-list update, modelling `env.data[key] = value`. -/
def updAssoc (l : List (GoStr × GoStr)) (k v : GoStr) : List (GoStr × GoStr) :=
  match l with
  | [] => [(k, v)]
  | (k1, v1) :: t => if k1 = k then (k, v) :: t else (k1, v1) :: updAssoc t k v

/-- `TestEnv.Get`: HOME and USER come from dedicated fields, everything else
from the map. -/
def TestEnvData.get (e : TestEnvData) (key : GoStr) : GoStr :=
  if key = "HOME".toList then e.home
  else if key = "USER".toList then e.user
  else ((e.data.lookup key).getD [])

/-- `TestEnv.GetHome`: the configured home with the jail prefix removed;
errors when home is unset. -/
def TestEnvData.GetHome (e : TestEnvData) : Except GoStr GoStr :=
  if e.home = [] then Except.error ("home not set in TestEnv".toList)
  else Except.ok (stripJail e.jail e.home)

/-- `TestEnv.Getwd`: the PWD entry of the map, erroring when absent. -/
def TestEnvData.Getwd (e : TestEnvData) : Except GoStr GoStr :=
  let wd := (e.data.lookup ("PWD".toList)).getD []
  if wd ≠ [] then Except.ok wd
  else Except.error ("working directory not set in TestEnv".toList)

/-- `TestEnv.ExpandPath`: expand a simple leading tilde using the TestEnv
home (an unset home expands as the empty string). -/
def TestEnvData.expandPath (e : TestEnvData) (p : GoStr) : GoStr :=
  if p = [] then p
  else if p.head? ≠ some '~' then p
  else if p = ['~'] ∨ (['~', '/'].isPrefixOf p) ∨ (['~', '\\'].isPrefixOf p) then
    let home := match e.GetHome with | Except.ok h => h | Except.error _ => []
    if p = ['~'] then cleanPath home else joinPath2 home (p.drop 2)
  else p

/-- `TestEnv.ResolvePath` with `follow = false` (the only mode its own
callers `SetHome`/`Setwd` use): cleanPath, tilde-expand, join against PWD. -/
def TestEnvData.ResolvePathNF (e : TestEnvData) (r : GoStr) : Except GoStr GoStr :=
  let p := cleanPath r
  if p = ['.'] ∨ p = [] then e.Getwd
  else
    let expanded := e.expandPath r
    if isAbs expanded then Except.ok (cleanPath expanded)
    else
      match e.Getwd with
      | Except.error err => Except.error err
      | Except.ok wd => Except.ok (cleanPath (joinPath2 wd expanded))

/-- `TestEnv.SetHome`: resolve, re-prefix with the jail, store in the home
field and the HOME map entry. -/
def TestEnvData.SetHome (e : TestEnvData) (r : GoStr) : Except GoStr TestEnvData :=
  match e.ResolvePathNF r with
  | Except.error err => Except.error err
  | Except.ok path =>
    let home := joinPath2 e.jail path
    Except.ok { e with home := home, data := updAssoc e.data ("HOME".toList) home }

/-- `TestEnv.Setwd`: resolve and store under PWD. -/
def TestEnvData.SetwdE (e : TestEnvData) (dir : GoStr) : Except GoStr TestEnvData :=
  match e.ResolvePathNF dir with
  | Except.error err => Except.error err
  | Except.ok path => Except.ok { e with data := updAssoc e.data ("PWD".toList) path }

/-- `TestEnv.Set`: HOME/USER/PWD update the dedicated state, other keys the
map.  A failed HOME/PWD resolution leaves the environment unchanged (the Go
method reports the error to its caller; the error value itself is not needed
by the claims settled here). -/
def TestEnvData.set (e : TestEnvData) (k v : GoStr) : TestEnvData :=
  if k = "HOME".toList then
    match e.SetHome v with | Except.ok e1 => e1 | Except.error _ => e
  else if k = "USER".toList then
    { e with user := v, data := updAssoc e.data ("USER".toList) v }
  else if k = "PWD".toList then
    match e.SetwdE v with | Except.ok e1 => e1 | Except.error _ => e
  else
    { e with data := updAssoc e.data k v }

/-- `TestEnv.Clone` / `CloneEnv`: a full copy, deep-copying the map (pure
record copy in this model). -/
def TestEnvData.CloneM (e : TestEnvData) : TestEnvData :=
  ⟨e.jail, e.home, e.user, e.data⟩

/-! ## Environment-variable expansion (`os.Expand`, `env.ExpandEnv`) -/

def isShellSpecialVar (c : Char) : Bool :=
  c = '*' ∨ c = '#' ∨ c = '$' ∨ c = '@' ∨ c = '!' ∨ c = '?' ∨ c = '-' ∨
  ('0' ≤ c ∧ c ≤ '9')

def isAlphaNum (c : Char) : Bool :=
  c = '_' ∨ ('0' ≤ c ∧ c ≤ '9') ∨ ('a' ≤ c ∧ c ≤ 'z') ∨ ('A' ≤ c ∧ c ≤ 'Z')

/-- Scan for a closing brace, returning the name between the braces and the
number of characters consumed including the brace. -/
def findCloseBrace : GoStr → Option (GoStr × Nat)
  | [] => none
  | c :: rest =>
    if c = '}' then some ([], 1)
    else (findCloseBrace rest).map (fun pr => (c :: pr.1, pr.2 + 1))

/-- `os.getShellName`: the name referenced after a `$`, and how many
characters it occupies. -/
def getShellName (s : GoStr) : GoStr × Nat :=
  match s with
  | [] => ([], 0)
  | c :: rest =>
    if c = '{' then
      match rest with
      | c1 :: '}' :: _ =>
        if isShellSpecialVar c1 then ([c1], 3)
        else
          match findCloseBrace rest with
          | some (content, n) => if content = [] then ([], 2) else (content, n + 1)
          | none => ([], 1)
      | _ =>
        match findCloseBrace rest with
        | some (content, n) => if content = [] then ([], 2) else (content, n + 1)
        | none => ([], 1)
    else if isShellSpecialVar c then ([c], 1)
    else
      let name := (c :: rest).takeWhile isAlphaNum
      (name, name.length)

/-- `os.Expand`, written with an explicit fuel counter so the recursion is
structural; `goExpand` supplies fuel equal to the string length, which the
scan can never exhaust since every step consumes at least one character. -/
def goExpandAux (mapping : GoStr → GoStr) : Nat → GoStr → GoStr
  | 0, s => s
  | _ + 1, [] => []
  | fuel + 1, c :: rest =>
    if c = '$' ∧ rest ≠ [] then
      let pr := getShellName rest
      if pr.1 = [] ∧ pr.2 > 0 then goExpandAux mapping fuel (rest.drop pr.2)
      else if pr.1 = [] then '$' :: goExpandAux mapping fuel rest
      else mapping pr.1 ++ goExpandAux mapping fuel (rest.drop pr.2)
    else c :: goExpandAux mapping fuel rest

def goExpand (mapping : GoStr → GoStr) (s : GoStr) : GoStr :=
  goExpandAux mapping s.length s

/-! ## `toolkit.ExpandPath` (`part_003`) and the Runtime resolution path
(`part_005`) -/

/-- `toolkit.ExpandPath(env, p)`: expand a simple leading tilde to the home
directory reported by the environment, erroring when no home is
configured. -/
def ExpandPathE (getHome : Except GoStr GoStr) (p : GoStr) : Except GoStr GoStr :=
  if p = [] then Except.ok p
  else if p.head? ≠ some '~' then Except.ok p
  else if p = ['~'] ∨ (['~', '/'].isPrefixOf p) ∨ (['~', '\\'].isPrefixOf p) then
    match getHome with
    | Except.error e => Except.error e
    | Except.ok home =>
      if p = ['~'] then Except.ok (cleanPath home) else Except.ok (joinPath2 home (p.drop 2))
  else Except.ok p

/-- The runtime state used by `Runtime.ResolvePath`: its canonical working
directory, the TestEnv collaborator, and the `OsFS` collaborator state.  The
collaborators are assumed present (`Validate` succeeds). -/
structure RuntimeSt where
  env : TestEnvData
  wd : GoStr
  fs : OsFSState

/-- `Runtime.ResolvePath(rel, follow=false)`: empty or `.` resolves the
working directory; otherwise `$var` expansion, tilde expansion through the
environment's home, join against the canonical working directory, then
`OsFS.ResolvePath` on the cleaned result. -/
def RuntimeResolvePathNF (o : HostOracle) (rt : RuntimeSt) (path : GoStr) :
    Except GoStr GoStr :=
  if trimSpace path = [] ∨ path = ['.'] then
    (resolveVirtualNF o rt.fs (cleanPath rt.wd)).2
  else
    let expanded := goExpand (fun k => rt.env.get k) path
    match ExpandPathE rt.env.GetHome expanded with
    | Except.error e => Except.error e
    | Except.ok parsed =>
      let p := if isAbs parsed then parsed else joinPath2 rt.wd parsed
      (resolveVirtualNF o rt.fs (cleanPath p)).2

/-! ## Process/pipeline harness (`sandbox/process.go`, `part_002`) -/

/-- What one stage's runner produces when executed with a given stdin byte
stream: the bytes it writes to its resolved stdout and stderr, its exit
code, and its error. -/
structure StageOutcome where
  outBytes : GoStr
  errBytes : GoStr
  exitCode : Nat
  failure : Option GoStr
  deriving DecidableEq

/-- One pipeline stage: its runner modelled as a function of the full stdin
byte stream, plus the stream configuration of the underlying process
(explicit writer set via `SetStdout`/`SetStderr`; per-process capture buffer
requested via the process's own capture accessors). -/
structure StageSpecM where
  run : GoStr → StageOutcome
  explicitOut : Bool
  explicitErr : Bool
  capturedOut : Bool
  capturedErr : Bool

/-- Dataflow of `Pipeline.Run`'s wiring: stage `i`'s stdout pipe feeds stage
`i+1`'s stdin.  A stage whose stdout resolves to an explicit writer or its
own capture buffer (both take priority over the pipe) contributes nothing to
the pipe, so the next stage reads an immediately-closed, empty stream. -/
def runStagesData : List StageSpecM → GoStr → List StageOutcome
  | [], _ => []
  | st :: rest, input =>
    let r := st.run input
    r :: runStagesData rest (if st.explicitOut ∨ st.capturedOut then [] else r.outBytes)

/-- The pipeline configuration at the time `Run` is called: the stage list
and whether the pipeline-level capture accessors were invoked beforehand. -/
structure PipelineM where
  stages : List StageSpecM
  outBufRequested : Bool
  errBufRequested : Bool

/-- The `PipelineResult`: joined errors (empty list = nil error), exit code,
and the bytes of the pipeline-level stdout/stderr buffers. -/
structure PipelineResultM where
  errs : List GoStr
  exitCode : Nat
  stdout : GoStr
  stderr : GoStr
  deriving DecidableEq

instance : Inhabited StageOutcome := ⟨⟨[], [], 0, none⟩⟩

/-- `Pipeline.Run`: nil-runtime and zero-stage configuration errors; then
all stages run with stdout piped stage-to-stage, the final stage's
stdout/stderr redirected into the pipeline-level buffers (which `Run`
allocates itself when the capture accessors were never called), every
stage's non-nil error collected and joined, and exit code 1 exactly when
some stage failed.  An explicit final-stage writer takes priority over the
redirected buffer, which then stays empty. -/
def PipelineRunM (rtNil : Bool) (p : PipelineM) : PipelineResultM :=
  if rtNil then ⟨["pipeline: runtime is nil".toList], 1, [], []⟩
  else
    match p.stages with
    | [] => ⟨["pipeline: no stages".toList], 1, [], []⟩
    | s0 :: rest =>
      let results := runStagesData (s0 :: rest) []
      let errs := results.filterMap StageOutcome.failure
      let lastStage := (s0 :: rest).getLastD s0
      let lastOutcome := results.getLastD default
      { errs := errs
        exitCode := if errs = [] then 0 else 1
        stdout := if lastStage.explicitOut then [] else lastOutcome.outBytes
        stderr := if lastStage.explicitErr then [] else lastOutcome.errBytes }

/-! ### The concrete two-stage scenario of `TestPipeline_TwoStages` -/

/-- ASCII uppercasing as performed by `strings.ToUpper` on ASCII input. -/
def goToUpper (s : GoStr) : GoStr := s.map Char.toUpper

/-- Split on newlines as `splitSlash` does on separators. -/
def consHeadNL (c : Char) : List GoStr → List GoStr
  | [] => [[c]]
  | p :: ps => (c :: p) :: ps

def splitNL : GoStr → List GoStr
  | [] => [[]]
  | c :: cs => if c = '\n' then [] :: splitNL cs else consHeadNL c (splitNL cs)

/-- `bufio.Scanner` with `ScanLines`: tokens are the newline-separated
lines, a trailing `\r` stripped from each, and no empty token after a final
newline. -/
def dropCR (l : GoStr) : GoStr :=
  if l.getLast? = some '\r' then l.dropLast else l

def scanLines (s : GoStr) : List GoStr :=
  let parts := splitNL s
  (if parts.getLast? = some [] then parts.dropLast else parts).map dropCR

/-- The producer stage of `TestPipeline_TwoStages`: `Fprintln` each of the
configured lines to its stdout. -/
def producerStage (lines : List GoStr) : StageSpecM :=
  { run := fun _ => ⟨lines.foldr (fun l acc => l ++ '\n' :: acc) [], [], 0, none⟩
    explicitOut := false, explicitErr := false
    capturedOut := false, capturedErr := false }

/-- The consumer stage of `TestPipeline_TwoStages`: scan stdin line by line
and `Fprintln` each line uppercased with a `C:` prerendered tag. -/
def consumerStage : StageSpecM :=
  { run := fun input =>
      ⟨(scanLines input).foldr
          (fun l acc => "C:".toList ++ goToUpper l ++ '\n' :: acc) [], [], 0, none⟩
    explicitOut := false, explicitErr := false
    capturedOut := false, capturedErr := false }

/-- The pipeline built by `TestPipeline_TwoStages`: producer of the lines
alpha, beta, gamma piped into the uppercasing consumer, with pipeline-level
stdout capture requested. -/
def twoStagePipeline : PipelineM :=
  { stages := [producerStage ["alpha".toList, "beta".toList, "gamma".toList],
               consumerStage]
    outBufRequested := true, errBufRequested := false }

/-! ## Runtime cloning (`Runtime.Clone`, `TestEnv.Clone`) with an explicit
heap to capture reference sharing versus deep copying -/

/-- A stream set: references to the three stream handles plus the two
flags (a value struct in Go; copied wholesale by `Clone`). -/
structure StreamM where
  inRef : Nat
  outRef : Nat
  errRef : Nat
  isPiped : Bool
  isTTY : Bool
  deriving DecidableEq

instance : Inhabited StreamM := ⟨⟨0, 0, 0, false, false⟩⟩

/-- The runtime as a tuple of references into the heap; `Clone` copies this
struct shallowly, so collaborators are shared unless a field is replaced. -/
structure RuntimeRefs where
  envRef : Nat
  streamRef : Nat
  clockRef : Nat
  loggerRef : Nat
  hasherRef : Nat
  fsRef : Nat
  deriving DecidableEq

/-- The heap of mutable collaborator cells reachable from runtimes. -/
structure Heap where
  envs : List TestEnvData
  streams : List StreamM
  deriving DecidableEq

/-- `Runtime.Clone` for a runtime whose environment is a `TestEnv` (an
`EnvCloner`): the struct is copied shallowly — clock, logger, hasher and
filesystem references unchanged — the environment is replaced by a deep
clone allocated in a fresh cell, and the stream set is replaced by a fresh
copy of the current stream value. -/
def RuntimeCloneM (h : Heap) (rt : RuntimeRefs) : Heap × RuntimeRefs :=
  let envCell := h.envs.getD rt.envRef default
  let streamCell := h.streams.getD rt.streamRef default
  (⟨h.envs ++ [envCell.CloneM], h.streams ++ [streamCell]⟩,
   { rt with envRef := h.envs.length, streamRef := h.streams.length })

/-- `env.Set(key, value)` performed through the environment reference held
by a runtime. -/
def heapEnvSet (h : Heap) (r : Nat) (k v : GoStr) : Heap :=
  { h with envs := h.envs.set r ((h.envs.getD r default).set k v) }

/-- Read a key through the environment reference held by a runtime. -/
def heapEnvGet (h : Heap) (r : Nat) (k : GoStr) : GoStr :=
  (h.envs.getD r default).get k

/-- Replace the stream set through the stream reference held by a runtime
(`SetStream` / rewiring the stream struct). -/
def heapStreamSet (h : Heap) (r : Nat) (s : StreamM) : Heap :=
  { h with streams := h.streams.set r s }

/-- Read the stream set through the stream reference held by a runtime. -/
def heapStreamGet (h : Heap) (r : Nat) : StreamM :=
  h.streams.getD r default

/-! ## Predicates and concrete inputs used by the verification -/

/-- Components kept by `filepath.Clean`'s element processing. -/
def keepComp (c : GoStr) : Bool := ¬ (c = [] ∨ c = ['.'])

/-- A well-formed path component: nonempty, not `.`, not `..`, and free of
separators. -/
def GoodC (c : GoStr) : Prop := c ≠ [] ∧ c ≠ ['.'] ∧ c ≠ dd ∧ '/' ∉ c

def GoodComps (l : List GoStr) : Prop := ∀ c ∈ l, GoodC c

instance (c : GoStr) : Decidable (GoodC c) := by unfold GoodC; infer_instance

instance (l : List GoStr) : Decidable (GoodComps l) := by
  unfold GoodComps; infer_instance

/-- The nonempty separator-delimited components of a path string. -/
def pathComponents (s : GoStr) : List GoStr :=
  (splitSlash s).filter (fun c => ¬ c = [])

/-- Whether a relative path begins with a parent-directory segment: it is
exactly `..` or starts with the three characters of a leading `../`. -/
def startsWithDDSegment (r : GoStr) : Bool :=
  r == dd || (dd ++ ['/']).isPrefixOf r

/-- `isInBoundary` as the spec sentence states it, with "does not begin with
a parent-directory (`..`) segment" read as a segment condition, and a failed
relative-path computation mapped to `false` as in the code. -/
def isInBoundarySegSpec (jailRoot path : GoStr) : Bool :=
  if jailRoot = [] then true
  else if ¬ isAbs (cleanPath path) then true
  else
    match relPath (cleanPath jailRoot) (cleanPath path) with
    | none => false
    | some r => ! startsWithDDSegment r

/-- `isInBoundary` per the spec sentence amended to the code's check: true
iff the relative path does not start with the two characters `..` (so a
first segment merely named with a leading `..`, such as `..data`, also
counts as outside); a failed relative-path computation yields `false`. -/
def isInBoundaryAmended (jailRoot path : GoStr) : Bool :=
  if jailRoot = [] then true
  else if ¬ isAbs (cleanPath path) then true
  else
    match relPath (cleanPath jailRoot) (cleanPath path) with
    | none => false
    | some r => ! (dd.isPrefixOf r)

/-- The cleaned virtual path computed by `resolveVirtual` from the working
directory and the input path (the steps before the jail check). -/
def c10Virtual (s : OsFSState) (p : GoStr) : GoStr :=
  let wd := if s.wd = [] then ['/'] else s.wd
  let p1 := if trimSpace p = [] ∨ p = ['.'] then wd else p
  let p2 := if isAbs p1 then p1 else joinPath2 wd p1
  cleanPath p2

/-- A host oracle on which every stat reports absence. -/
def oAbsent : HostOracle := ⟨fun _ => HostStat.notExist, ['/']⟩

/-- A host oracle on which every stat reports a regular file. -/
def oAllFiles : HostOracle := ⟨fun _ => HostStat.file, ['/']⟩

/-- An `OsFS` whose working directory was never initialized (`&OsFS{}` after
`SetJail`), as built by `NewRuntime`'s default before any operation runs. -/
def sUninit : OsFSState := ⟨"/j".toList, []⟩

/-- The jailed filesystem state of the sandbox resolve-path test: jail at
`/j`, working directory `/home/testuser`. -/
def sC10 : OsFSState := ⟨"/j".toList, "/home/testuser".toList⟩

/-- The test environment of the resolution scenarios: jail `/t`, home
`/home/testuser` (stored jail-prefixed, as `TestEnv.SetJail` leaves it). -/
def envC5 : TestEnvData :=
  { jail := "/t".toList, home := "/t/home/testuser".toList,
    user := "testuser".toList,
    data := [("PWD".toList, "/home/testuser".toList)] }

/-- Runtime of the tilde-expansion scenario: working directory
`/home/testuser`. -/
def rtC5a : RuntimeSt :=
  { env := envC5, wd := "/home/testuser".toList,
    fs := ⟨"/t".toList, "/home/testuser".toList⟩ }

/-- Runtime of the parent-traversal scenario: working directory
`/home/testuser/.config/app`. -/
def rtC5b : RuntimeSt :=
  { env := envC5, wd := "/home/testuser/.config/app".toList,
    fs := ⟨"/t".toList, "/home/testuser/.config/app".toList⟩ }

/-- A stage that succeeds and writes one byte stream. -/
def stOk : StageSpecM :=
  ⟨fun _ => ⟨"o\n".toList, [], 0, none⟩, false, false, false, false⟩

/-- A stage whose runner fails. -/
def stFail : StageSpecM :=
  ⟨fun _ => ⟨[], [], 3, some ("boom".toList)⟩, false, false, false, false⟩

/-- A second failing stage, to exercise multi-error joining. -/
def stFail2 : StageSpecM :=
  ⟨fun _ => ⟨[], [], 4, some ("bang".toList)⟩, false, false, false, false⟩

/-- The empty pipeline. -/
def pEmpty : PipelineM := ⟨[], false, false⟩

/-- A three-stage pipeline with two failing stages. -/
def pMix : PipelineM := ⟨[stOk, stFail, stFail2], false, false⟩

/-- The single-stage pipeline of `TestPipeline_SingleStage`, on which the
caller never invokes the pipeline-level capture accessors. -/
def pNoCapture : PipelineM :=
  ⟨[producerStage ["single stage output".toList]], false, false⟩

/-- A one-cell heap for the cloning witness. -/
def hW : Heap :=
  ⟨[⟨[], "/home/u".toList, "u".toList, []⟩], [⟨0, 1, 2, false, false⟩]⟩

/-- The runtime references of the cloning witness. -/
def rtW : RuntimeRefs := ⟨0, 0, 1, 2, 3, 4⟩

/-! ## Lemmas about the path core -/

theorem mem_splitSlash_noSlash (s : GoStr) : ∀ c ∈ splitSlash s, '/' ∉ c := by
  induction s with
  | nil =>
    intro c hc
    simp only [splitSlash, List.mem_singleton] at hc
    simp [hc]
  | cons a cs ih =>
    intro c hc
    simp only [splitSlash] at hc
    by_cases ha : a = '/'
    · rw [if_pos ha] at hc
      rcases List.mem_cons.mp hc with h | h
      · simp [h]
      · exact ih c h
    · rw [if_neg ha] at hc
      cases hcs : splitSlash cs with
      | nil =>
        rw [hcs] at hc
        simp only [consHead, List.mem_singleton] at hc
        subst hc
        simpa using fun h => ha h.symm
      | cons p ps =>
        rw [hcs] at hc
        simp only [consHead] at hc
        rcases List.mem_cons.mp hc with h | h
        · subst h
          have hp : '/' ∉ p := ih p (by rw [hcs]; exact List.mem_cons_self p ps)
          simp only [List.mem_cons]
          rintro (h1 | h1)
          · exact ha h1.symm
          · exact hp h1
        · exact ih c (by rw [hcs]; exact List.mem_cons_of_mem p h)

theorem splitSlash_single (p : GoStr) (h : '/' ∉ p) : splitSlash p = [p] := by
  induction p with
  | nil => rfl
  | cons a cs ih =>
    have ha : ¬ a = '/' := by
      intro hh; exact h (by simp [hh])
    have hcs : '/' ∉ cs := fun hm => h (List.mem_cons_of_mem a hm)
    simp only [splitSlash, if_neg ha, ih hcs, consHead]

theorem splitSlash_append (p : GoStr) (h : '/' ∉ p) (t : GoStr) :
    splitSlash (p ++ '/' :: t) = p :: splitSlash t := by
  induction p with
  | nil => simp [splitSlash]
  | cons a cs ih =>
    have ha : ¬ a = '/' := by
      intro hh; exact h (by simp [hh])
    have hcs : '/' ∉ cs := fun hm => h (List.mem_cons_of_mem a hm)
    have h1 : splitSlash ((a :: cs) ++ '/' :: t) =
        consHead a (splitSlash (cs ++ '/' :: t)) := by
      simp [splitSlash, ha]
    rw [h1, ih hcs]
    rfl

theorem splitSlash_joinComps (ps : List GoStr) (hne : ps ≠ [])
    (hs : ∀ p ∈ ps, '/' ∉ p) : splitSlash (joinComps ps) = ps := by
  induction ps with
  | nil => exact absurd rfl hne
  | cons p rest ih =>
    cases rest with
    | nil =>
      simpa [joinComps] using splitSlash_single p (hs p (by simp))
    | cons q t =>
      have h1 : joinComps (p :: q :: t) = p ++ '/' :: joinComps (q :: t) := rfl
      rw [h1, splitSlash_append p (hs p (by simp)),
        ih (by simp) (fun x hx => hs x (List.mem_cons_of_mem p hx))]

theorem splitSlash_joinComps_append (ps : List GoStr) (hne : ps ≠ [])
    (hs : ∀ p ∈ ps, '/' ∉ p) (t : GoStr) :
    splitSlash (joinComps ps ++ '/' :: t) = ps ++ splitSlash t := by
  induction ps with
  | nil => exact absurd rfl hne
  | cons p rest ih =>
    cases rest with
    | nil =>
      simpa [joinComps] using splitSlash_append p (hs p (by simp)) t
    | cons q t2 =>
      have h1 : joinComps (p :: q :: t2) = p ++ '/' :: joinComps (q :: t2) := rfl
      rw [h1, List.append_assoc, List.cons_append,
        splitSlash_append p (hs p (by simp)),
        ih (by simp) (fun x hx => hs x (List.mem_cons_of_mem p hx))]
      rfl

theorem foldl_cleanStep_no_dd (r : Bool) (l : List GoStr)
    (hdd : ∀ c ∈ l, c ≠ dd) :
    ∀ acc, l.foldl (cleanStep r) acc = (l.filter keepComp).reverse ++ acc := by
  induction l with
  | nil => intro acc; simp
  | cons c t ih =>
    intro acc
    have hdt : ∀ x ∈ t, x ≠ dd := fun x hx => hdd x (List.mem_cons_of_mem c hx)
    by_cases hk : c = [] ∨ c = ['.']
    · have hstep : cleanStep r acc c = acc := by
        simp [cleanStep, hk]
      have hfil : keepComp c = false := by
        simp [keepComp, hk]
      simp only [List.foldl_cons, hstep, List.filter_cons, hfil]
      exact ih hdt acc
    · have hstep : cleanStep r acc c = c :: acc := by
        simp [cleanStep, hk, hdd c (by simp)]
      have hfil : keepComp c = true := by
        simp [keepComp, hk]
      simp only [List.foldl_cons, hstep, List.filter_cons, hfil]
      rw [ih hdt (c :: acc)]
      simp

theorem cleanComps_no_dd (r : Bool) (l : List GoStr)
    (hdd : ∀ c ∈ l, c ≠ dd) : cleanComps r l = l.filter keepComp := by
  unfold cleanComps
  rw [foldl_cleanStep_no_dd r l hdd []]
  simp

theorem filter_keepComp_good (l : List GoStr) (h : GoodComps l) :
    l.filter keepComp = l := by
  apply List.filter_eq_self.mpr
  intro c hc
  rcases h c hc with ⟨h1, h2, _, _⟩
  simp [keepComp, h1, h2]

theorem cleanComps_good (r : Bool) (l : List GoStr) (h : GoodComps l) :
    cleanComps r l = l := by
  rw [cleanComps_no_dd r l (fun c hc => (h c hc).2.2.1), filter_keepComp_good l h]

theorem cleanStep_ne_nil (r : Bool) (acc : List GoStr) (c : GoStr)
    (hacc : ∀ x ∈ acc, x ≠ []) : ∀ x ∈ cleanStep r acc c, x ≠ [] := by
  by_cases h1 : c = [] ∨ c = ['.']
  · simpa [cleanStep, h1] using hacc
  · by_cases h2 : c = dd
    · cases acc with
      | nil =>
        by_cases hr : r = true
        · simp [cleanStep, h1, h2, hr]
        · simp only [Bool.not_eq_true] at hr
          simp [cleanStep, h1, h2, hr, dd]
      | cons top rest =>
        by_cases ht : top = dd
        · intro x hx
          simp only [cleanStep, if_neg h1, if_pos h2, if_pos ht] at hx
          rcases List.mem_cons.mp hx with h | h
          · subst h; simp [dd]
          · exact hacc x h
        · intro x hx
          simp only [cleanStep, if_neg h1, if_pos h2, if_neg ht] at hx
          exact hacc x (List.mem_cons_of_mem top hx)
    · intro x hx
      simp only [cleanStep, if_neg h1, if_neg h2] at hx
      rcases List.mem_cons.mp hx with h | h
      · subst h
        intro hc
        exact h1 (Or.inl hc)
      · exact hacc x h

theorem foldl_cleanStep_ne_nil (r : Bool) (l : List GoStr) :
    ∀ acc, (∀ x ∈ acc, x ≠ []) → ∀ x ∈ l.foldl (cleanStep r) acc, x ≠ [] := by
  induction l with
  | nil => intro acc hacc x hx; exact hacc x hx
  | cons c t ih =>
    intro acc hacc
    simp only [List.foldl_cons]
    exact ih _ (cleanStep_ne_nil r acc c hacc)

theorem mem_cleanComps_ne_nil (r : Bool) (l : List GoStr) :
    ∀ x ∈ cleanComps r l, x ≠ [] := by
  intro x hx
  unfold cleanComps at hx
  exact foldl_cleanStep_ne_nil r l [] (by simp) x (List.mem_reverse.mp hx)

theorem clean_ne_nil (p : GoStr) : cleanPath p ≠ [] := by
  unfold cleanPath
  by_cases h0 : p = []
  · simp [h0]
  · rw [if_neg h0]
    by_cases hr : isAbs p = true
    · simp [hr]
    · simp only [Bool.not_eq_true] at hr
      simp only [hr]
      cases hc : cleanComps false (splitSlash p) with
      | nil => simp
      | cons c t =>
        have hc0 : c ≠ [] :=
          mem_cleanComps_ne_nil false (splitSlash p) c (by rw [hc]; simp)
        simp only [Bool.false_eq_true, if_false, List.cons_ne_nil,
          if_neg (by simp : ¬ (c :: t) = ([] : List GoStr))]
        cases t with
        | nil => simpa [joinComps] using hc0
        | cons q t2 =>
          have : joinComps (c :: q :: t2) = c ++ '/' :: joinComps (q :: t2) := rfl
          rw [this]
          simp

theorem goodComps_noSlash (l : List GoStr) (h : GoodComps l) :
    ∀ p ∈ l, '/' ∉ p := fun p hp => (h p hp).2.2.2

theorem goodComps_append (a b : List GoStr) (ha : GoodComps a)
    (hb : GoodComps b) : GoodComps (a ++ b) := by
  intro c hc
  rcases List.mem_append.mp hc with h | h
  · exact ha c h
  · exact hb c h

theorem mkAbs_ne_nil (l : List GoStr) : mkAbs l ≠ [] := by
  simp [mkAbs]

theorem isAbs_mkAbs (l : List GoStr) : isAbs (mkAbs l) = true := by
  simp [mkAbs, isAbs]

theorem splitSlash_mkAbs (l : List GoStr) (hne : l ≠ [])
    (hs : ∀ p ∈ l, '/' ∉ p) : splitSlash (mkAbs l) = [] :: l := by
  have h1 : splitSlash (mkAbs l) = [] :: splitSlash (joinComps l) := by
    simp [mkAbs, splitSlash]
  rw [h1, splitSlash_joinComps l hne hs]

theorem clean_mkAbs (l : List GoStr) (h : GoodComps l) :
    cleanPath (mkAbs l) = mkAbs l := by
  have h0 : mkAbs l ≠ [] := mkAbs_ne_nil l
  have habs : isAbs (mkAbs l) = true := isAbs_mkAbs l
  unfold cleanPath
  rw [if_neg h0]
  simp only [habs, if_pos]
  cases hl : l with
  | nil =>
    subst hl
    rfl
  | cons c t =>
    rw [← hl, splitSlash_mkAbs l (by rw [hl]; simp) (goodComps_noSlash l h)]
    have hnodd : ∀ x ∈ ([] : GoStr) :: l, x ≠ dd := by
      intro x hx
      rcases List.mem_cons.mp hx with h1 | h1
      · subst h1; simp [dd]
      · exact (h x h1).2.2.1
    rw [cleanComps_no_dd true _ hnodd]
    have hnil : keepComp ([] : GoStr) = false := by simp [keepComp]
    simp only [List.filter_cons, hnil, filter_keepComp_good l h, mkAbs]
    simp

theorem clean_absJoin (js : List GoStr) (hjs : GoodComps js) (X : GoStr)
    (hdd : ∀ c ∈ splitSlash X, c ≠ dd) :
    cleanPath ('/' :: (joinComps js ++ '/' :: X)) =
      mkAbs (js ++ (splitSlash X).filter keepComp) := by
  have h0 : ('/' :: (joinComps js ++ '/' :: X) : GoStr) ≠ [] := by simp
  have habs : isAbs ('/' :: (joinComps js ++ '/' :: X)) = true := rfl
  unfold cleanPath
  rw [if_neg h0]
  simp only [habs, if_pos]
  have hsplit : splitSlash ('/' :: (joinComps js ++ '/' :: X)) =
      [] :: splitSlash (joinComps js ++ '/' :: X) := by
    simp [splitSlash]
  cases hl : js with
  | nil =>
    subst hl
    have h2 : splitSlash (joinComps ([] : List GoStr) ++ '/' :: X) =
        [] :: splitSlash X := by
      simp [joinComps, splitSlash]
    rw [hsplit, h2]
    have hnodd : ∀ x ∈ ([] : GoStr) :: ([] : GoStr) :: splitSlash X, x ≠ dd := by
      intro x hx
      rcases List.mem_cons.mp hx with h1 | h1
      · subst h1; simp [dd]
      · rcases List.mem_cons.mp h1 with h2 | h2
        · subst h2; simp [dd]
        · exact hdd x h2
    rw [cleanComps_no_dd true _ hnodd]
    have hnil : keepComp ([] : GoStr) = false := by simp [keepComp]
    simp [List.filter_cons, hnil, mkAbs]
  | cons c t =>
    rw [← hl, hsplit,
      splitSlash_joinComps_append js (by rw [hl]; simp) (goodComps_noSlash js hjs)]
    have hnodd : ∀ x ∈ ([] : GoStr) :: (js ++ splitSlash X), x ≠ dd := by
      intro x hx
      rcases List.mem_cons.mp hx with h1 | h1
      · subst h1; simp [dd]
      · rcases List.mem_append.mp h1 with h2 | h2
        · exact (hjs x h2).2.2.1
        · exact hdd x h2
    rw [cleanComps_no_dd true _ hnodd]
    have hnil : keepComp ([] : GoStr) = false := by simp [keepComp]
    simp only [List.filter_cons, hnil, List.filter_append,
      filter_keepComp_good js hjs, mkAbs]
    simp

theorem joinComps_cons_ne_nil (v : GoStr) (t : List GoStr) (hv : v ≠ []) :
    joinComps (v :: t) ≠ [] := by
  cases t with
  | nil => simpa [joinComps] using hv
  | cons q t2 =>
    have h1 : joinComps (v :: q :: t2) = v ++ '/' :: joinComps (q :: t2) := rfl
    rw [h1]
    simp

theorem joinComps_length_lt (js vs : List GoStr) (hvs : vs ≠ [])
    (hv0 : ∀ c ∈ vs, c ≠ []) :
    (joinComps js).length < (joinComps (js ++ vs)).length := by
  induction js with
  | nil =>
    cases vs with
    | nil => exact absurd rfl hvs
    | cons v t =>
      have h1 : joinComps (v :: t) ≠ [] := joinComps_cons_ne_nil v t (hv0 v (by simp))
      simpa [joinComps] using List.length_pos.mpr h1
  | cons x rest ih =>
    cases rest with
    | nil =>
      cases vs with
      | nil => exact absurd rfl hvs
      | cons v t =>
        have h1 : joinComps ([x] ++ v :: t) = x ++ '/' :: joinComps (v :: t) := rfl
        rw [h1]
        simp [joinComps]
    | cons y t2 =>
      have h1 : joinComps (x :: y :: t2) = x ++ '/' :: joinComps (y :: t2) := rfl
      have h2 : joinComps ((x :: y :: t2) ++ vs) =
          x ++ '/' :: joinComps ((y :: t2) ++ vs) := rfl
      rw [h1, h2]
      simpa using ih

theorem mkAbs_append_ne (js vs : List GoStr) (hvs : vs ≠ [])
    (hv0 : ∀ c ∈ vs, c ≠ []) : mkAbs (js ++ vs) ≠ mkAbs js := by
  intro h
  have hlt := joinComps_length_lt js vs hvs hv0
  have h1 : joinComps (js ++ vs) = joinComps js := by
    simpa [mkAbs] using h
  rw [h1] at hlt
  exact lt_irrefl _ hlt


theorem stripCommon_self_append (l t : List GoStr) :
    stripCommon l (l ++ t) = ([], t) := by
  induction l with
  | nil =>
    cases t with
    | nil => rfl
    | cons b bs => rfl
  | cons a rest ih =>
    simp only [List.cons_append, stripCommon, if_pos rfl]
    exact ih

theorem relPath_self_mkAbs (l : List GoStr) (h : GoodComps l) :
    relPath (mkAbs l) (mkAbs l) = some ['.'] := by
  unfold relPath
  rw [clean_mkAbs l h]
  simp

theorem relPath_mkAbs_append (js vs : List GoStr) (hjs : GoodComps js)
    (hvs : GoodComps vs) (hne : vs ≠ []) :
    relPath (mkAbs js) (mkAbs (js ++ vs)) = some (joinComps vs) := by
  have hgall : GoodComps (js ++ vs) := goodComps_append js vs hjs hvs
  have hv0 : ∀ c ∈ vs, c ≠ [] := fun c hc => (hvs c hc).1
  have hne2 : mkAbs (js ++ vs) ≠ mkAbs js := mkAbs_append_ne js vs hne hv0
  unfold relPath
  rw [clean_mkAbs js hjs, clean_mkAbs (js ++ vs) hgall]
  rw [if_neg hne2]
  have hdot : mkAbs js ≠ (['.'] : GoStr) := by
    simp [mkAbs]
  rw [if_neg hdot]
  have habs : ¬ (isAbs (mkAbs js) ≠ isAbs (mkAbs (js ++ vs))) := by
    simp [isAbs_mkAbs]
  rw [if_neg habs]
  have hps1 : pathSplit (mkAbs js) =
      (if js = [] then [[], []] else [] :: js : List GoStr) := by
    unfold pathSplit
    rw [if_neg (mkAbs_ne_nil js)]
    by_cases hj : js = []
    · subst hj; simp [mkAbs, joinComps, splitSlash]
    · rw [if_neg hj, splitSlash_mkAbs js hj (goodComps_noSlash js hjs)]
  have hps2 : pathSplit (mkAbs (js ++ vs)) = [] :: (js ++ vs) := by
    unfold pathSplit
    rw [if_neg (mkAbs_ne_nil (js ++ vs))]
    exact splitSlash_mkAbs (js ++ vs) (by simp [hne]) (goodComps_noSlash _ hgall)
  rw [hps1, hps2]
  by_cases hj : js = []
  · subst hj
    cases vs with
    | nil => exact absurd rfl hne
    | cons v t =>
      have hv : v ≠ [] := hv0 v (by simp)
      simp only [List.nil_append, reduceIte]
      have h1 : stripCommon ([[], []] : List GoStr) ([] :: v :: t) =
          stripCommon [[]] (v :: t) := by
        show (if ([] : GoStr) = [] then stripCommon [[]] (v :: t)
          else ([[], []], [] :: v :: t)) = stripCommon [[]] (v :: t)
        rw [if_pos rfl]
      have h2 : stripCommon ([[]] : List GoStr) (v :: t) = ([[]], v :: t) := by
        show (if ([] : GoStr) = v then stripCommon [] t else ([[]], v :: t)) =
          ([[]], v :: t)
        rw [if_neg (fun hh => hv hh.symm)]
      rw [h1, h2]
      rw [if_neg (by simp [dd])]
      have hbr : joinComps ([[]] : List GoStr) = [] := rfl
      simp [hbr]
  · rw [if_neg hj]
    have hstrip : stripCommon ([] :: js) ([] :: (js ++ vs)) = ([], vs) := by
      have h1 : ([] :: (js ++ vs) : List GoStr) = ([] :: js) ++ vs := by simp
      rw [h1]
      exact stripCommon_self_append ([] :: js) vs
    rw [hstrip]
    rw [if_neg (by simp [dd])]
    simp [joinComps]

theorem dd_not_pre_append (v r : GoStr) (hv : v ≠ []) (hvd : v ≠ ['.'])
    (h : dd.isPrefixOf v = false) : dd.isPrefixOf (v ++ r) = false := by
  match v with
  | [] => exact absurd rfl hv
  | [c] =>
    have hc : c ≠ '.' := by
      intro hh
      exact hvd (by rw [hh])
    show (('.' == c) && List.isPrefixOf ['.'] r) = false
    have hbe : ('.' == c) = false := beq_eq_false_iff_ne.mpr (fun hh => hc hh.symm)
    rw [hbe, Bool.false_and]
  | c1 :: c2 :: t =>
    have h1 : List.isPrefixOf ['.', '.'] (c1 :: c2 :: t) = false := h
    show List.isPrefixOf ['.', '.'] (c1 :: c2 :: (t ++ r)) = false
    simp only [List.isPrefixOf, List.isPrefixOf_nil_left, Bool.and_true] at h1 ⊢
    exact h1

theorem dd_not_pre_joinComps (vs : List GoStr) (hg : GoodComps vs)
    (h : ∀ c ∈ vs, dd.isPrefixOf c = false) :
    dd.isPrefixOf (joinComps vs) = false := by
  match vs with
  | [] => rfl
  | [v] => exact h v (by simp)
  | v :: w :: t =>
    have h1 : joinComps (v :: w :: t) = v ++ '/' :: joinComps (w :: t) := rfl
    rw [h1]
    exact dd_not_pre_append v _ (hg v (by simp)).1 (hg v (by simp)).2.1
      (h v (by simp))

theorem IsInJail_mkAbs_append (js vs : List GoStr) (hjs : GoodComps js)
    (hvs : GoodComps vs) (hdd : ∀ c ∈ vs, dd.isPrefixOf c = false) :
    IsInJail (mkAbs js) (mkAbs (js ++ vs)) = true := by
  unfold IsInJail
  rw [clean_mkAbs js hjs]
  have hcond : ¬ (mkAbs js = [] ∨ mkAbs js = []) := by
    simp [mkAbs_ne_nil js]
  rw [if_neg (by simpa using (mkAbs_ne_nil js))]
  rw [clean_mkAbs (js ++ vs) (goodComps_append js vs hjs hvs)]
  rw [if_neg (by simp [isAbs_mkAbs])]
  cases hv : vs with
  | nil =>
    have h1 : js ++ vs = js := by simp [hv]
    rw [hv] at h1
    rw [h1, relPath_self_mkAbs js hjs]
    simp [dd, List.isPrefixOf]
  | cons v t =>
    rw [← hv, relPath_mkAbs_append js vs hjs hvs (by simp [hv])]
    simp only [Bool.not_eq_true']
    exact dd_not_pre_joinComps vs hvs hdd

theorem IsInJail_clean_join (js : List GoStr) (hjs : GoodComps js) (v : GoStr)
    (hdd : ∀ c ∈ pathComponents v, dd.isPrefixOf c = false) :
    IsInJail (mkAbs js) (cleanPath (joinPath2 (mkAbs js) v)) = true ∧
    cleanPath (joinPath2 (mkAbs js) v) = joinPath2 (mkAbs js) v := by
  have hddsplit : ∀ c ∈ splitSlash v, c ≠ dd := by
    intro c hc hcd
    subst hcd
    have hmem : dd ∈ pathComponents v := by
      unfold pathComponents
      refine List.mem_filter.mpr ⟨hc, ?_⟩
      simp [dd]
    have := hdd dd hmem
    simp [dd, List.isPrefixOf] at this
  have hjoin : joinPath2 (mkAbs js) v =
      mkAbs (js ++ (splitSlash v).filter keepComp) := by
    unfold joinPath2
    rw [if_neg (mkAbs_ne_nil js)]
    have hassoc : (mkAbs js ++ '/' :: v : GoStr) =
        '/' :: (joinComps js ++ '/' :: v) := by
      simp [mkAbs]
    rw [hassoc]
    exact clean_absJoin js hjs v hddsplit
  have hys : GoodComps ((splitSlash v).filter keepComp) := by
    intro c hc
    have hmem := List.mem_filter.mp hc
    have hkeep := hmem.2
    have hc1 : c ≠ [] := by
      intro hh
      rw [hh] at hkeep
      simp [keepComp] at hkeep
    have hc2 : c ≠ ['.'] := by
      intro hh
      rw [hh] at hkeep
      simp [keepComp] at hkeep
    have hcP : c ∈ pathComponents v := by
      unfold pathComponents
      exact List.mem_filter.mpr ⟨hmem.1, by simpa using hc1⟩
    have hc3 : c ≠ dd := by
      intro hh
      subst hh
      have := hdd dd hcP
      simp [dd, List.isPrefixOf] at this
    exact ⟨hc1, hc2, hc3, mem_splitSlash_noSlash v c hmem.1⟩
  have hysdd : ∀ c ∈ (splitSlash v).filter keepComp, dd.isPrefixOf c = false := by
    intro c hc
    have hmem := List.mem_filter.mp hc
    have hc1 : c ≠ [] := (hys c hc).1
    exact hdd c (List.mem_filter.mpr ⟨hmem.1, by simpa using hc1⟩)
  constructor
  · rw [hjoin, clean_mkAbs _ (goodComps_append js _ hjs hys)]
    exact IsInJail_mkAbs_append js _ hjs hys hysdd
  · rw [hjoin, clean_mkAbs _ (goodComps_append js _ hjs hys)]

/-! ## Claim theorems -/

/-- C1 (counterexample): the claim's iff fails as stated.  For jail `/j` and
path `/j/..data` the relative path is `..data`, which does not begin with a
parent-directory `..` segment — so the claim as stated requires `true` (and
`isInBoundarySegSpec`, the claim transcribed literally, returns `true`) —
yet `IsInJail` returns `false`, because the code tests the two-character
string `..` as a plain string prefix of the relative path. -/
theorem isInJail_segment_cx :
    IsInJail ("/j".toList) ("/j/..data".toList) = false ∧
    isInBoundarySegSpec ("/j".toList) ("/j/..data".toList) = true ∧
    relPath (cleanPath ("/j".toList)) (cleanPath ("/j/..data".toList)) =
      some ("..data".toList) ∧
    startsWithDDSegment ("..data".toList) = false := by
  refine ⟨by decide, by decide, by decide, by decide⟩

/-- C1 (amended): `isInBoundary(jailRoot, path)` returns true unconditionally
when the jail root is empty or the cleaned path is not absolute; otherwise it
computes the relative path of the cleaned path from the cleaned jail root and
returns true iff that relative path does not start with the two characters
`..` (a plain string test, so a first segment merely named with a leading
`..` also counts as outside); a failed relative-path computation yields
false. -/
theorem isInJail_eq_boundary_amended (J P : GoStr) :
    IsInJail J P = isInBoundaryAmended J P := by
  unfold IsInJail isInBoundaryAmended
  have hj : ¬ cleanPath J = [] := clean_ne_nil J
  by_cases hJ : J = []
  · rw [if_pos (Or.inr hJ), if_pos hJ]
  · rw [if_neg (by simp [hj, hJ]), if_neg hJ]

/-- C4 (counterexample): the round trip fails for a virtual path that is
already inside the boundary.  `/jail/a` is cleaned, `/`-rooted and inside
the boundary of jail `/jail`, `coerceIntoBoundary` returns it unchanged, and
`stripBoundaryPrefix` then strips the jail prefix, yielding `/a ≠ /jail/a`. -/
theorem roundTrip_inside_cx :
    IsInJail ("/jail".toList) ("/jail/a".toList) = true ∧
    cleanPath ("/jail/a".toList) = "/jail/a".toList ∧
    isAbs ("/jail/a".toList) = true ∧
    EnsureInJail ("/jail".toList) ("/jail/a".toList) = "/jail/a".toList ∧
    stripJail ("/jail".toList) (EnsureInJail ("/jail".toList) ("/jail/a".toList)) =
      "/a".toList ∧
    ("/a".toList : GoStr) ≠ "/jail/a".toList := by
  refine ⟨by decide, by decide, by decide, by decide, by decide, by decide⟩

theorem joinPath2_root_comps (vs : List GoStr) (hvs : GoodComps vs)
    (hv : vs ≠ []) : joinPath2 ['/'] (joinComps vs) = mkAbs vs := by
  have hddj : ∀ c ∈ splitSlash (joinComps vs), c ≠ dd := by
    rw [splitSlash_joinComps vs hv (goodComps_noSlash vs hvs)]
    intro c hc
    exact (hvs c hc).2.2.1
  unfold joinPath2
  rw [if_neg (by simp)]
  have hassoc2 : ((['/'] : GoStr) ++ '/' :: joinComps vs) =
      '/' :: (joinComps ([] : List GoStr) ++ '/' :: joinComps vs) := by
    simp [joinComps]
  rw [hassoc2, clean_absJoin [] (by intro c hc; simp at hc) (joinComps vs) hddj]
  rw [splitSlash_joinComps vs hv (goodComps_noSlash vs hvs)]
  simp only [List.nil_append, filter_keepComp_good vs hvs]

/-- C4 (amended): for every jail root given as a cleaned absolute path and
every cleaned `/`-rooted virtual path `V` that is NOT itself inside the
boundary — exactly the paths `coerceIntoBoundary` actually relocates under
the jail — the round trip recovers `V`:
`stripBoundaryPrefix(J, coerceIntoBoundary(J, V)) = V`.  (For a `V` already
inside the boundary, `coerceIntoBoundary` returns `V` unchanged and the
composition instead yields `V` with the jail prefix stripped, as the
counterexample shows.) -/
theorem roundTrip_outside (js vs : List GoStr) (hjs : GoodComps js)
    (hvs : GoodComps vs)
    (hout : IsInJail (mkAbs js) (mkAbs vs) = false) :
    stripJail (mkAbs js) (EnsureInJail (mkAbs js) (mkAbs vs)) = mkAbs vs := by
  by_cases hv : vs = []
  · subst hv
    have hensure : EnsureInJail (mkAbs js) (mkAbs []) = mkAbs js := by
      unfold EnsureInJail
      rw [if_neg (mkAbs_ne_nil js), clean_mkAbs js hjs]
      have hc : (mkAbs ([] : List GoStr) = [] ∨ mkAbs ([] : List GoStr) = ['/']) :=
        Or.inr rfl
      rw [if_pos hc]
    rw [hensure]
    unfold stripJail
    rw [clean_mkAbs js hjs, if_neg (mkAbs_ne_nil js), relPath_self_mkAbs js hjs]
    show joinPath2 ['/'] ['.'] = mkAbs []
    decide
  · have hgall : GoodComps (js ++ vs) := goodComps_append js vs hjs hvs
    have hddv : ∀ c ∈ splitSlash (mkAbs vs), c ≠ dd := by
      rw [splitSlash_mkAbs vs hv (goodComps_noSlash vs hvs)]
      intro c hc
      rcases List.mem_cons.mp hc with h | h
      · subst h; simp [dd]
      · exact (hvs c h).2.2.1
    have hjoin : joinPath2 (mkAbs js) (mkAbs vs) = mkAbs (js ++ vs) := by
      unfold joinPath2
      rw [if_neg (mkAbs_ne_nil js)]
      have hassoc : (mkAbs js ++ '/' :: mkAbs vs : GoStr) =
          '/' :: (joinComps js ++ '/' :: mkAbs vs) := by
        simp [mkAbs]
      rw [hassoc, clean_absJoin js hjs (mkAbs vs) hddv]
      have hfil : (splitSlash (mkAbs vs)).filter keepComp = vs := by
        rw [splitSlash_mkAbs vs hv (goodComps_noSlash vs hvs)]
        have hnil : keepComp ([] : GoStr) = false := by simp [keepComp]
        rw [List.filter_cons, hnil]
        simp only [Bool.false_eq_true, if_false]
        exact filter_keepComp_good vs hvs
      rw [hfil]
    have hensure : EnsureInJail (mkAbs js) (mkAbs vs) = mkAbs (js ++ vs) := by
      unfold EnsureInJail
      rw [if_neg (mkAbs_ne_nil js), clean_mkAbs js hjs]
      have hvne : mkAbs vs ≠ ['/'] := by
        intro hh
        have hjc : joinComps vs = [] := by
          simpa [mkAbs] using hh
        cases hv2 : vs with
        | nil => exact hv hv2
        | cons v t =>
          rw [hv2] at hjc
          exact joinComps_cons_ne_nil v t (hvs v (by rw [hv2]; simp)).1 hjc
      rw [if_neg (by simp [mkAbs_ne_nil vs, hvne]), clean_mkAbs vs hvs,
        if_neg (by simp [hout]), if_neg (by simp [isAbs_mkAbs]), hjoin]
    rw [hensure]
    unfold stripJail
    rw [clean_mkAbs js hjs, clean_mkAbs (js ++ vs) hgall,
      if_neg (mkAbs_ne_nil js), relPath_mkAbs_append js vs hjs hvs hv]
    show joinPath2 ['/'] (joinComps vs) = mkAbs vs
    exact joinPath2_root_comps vs hvs hv

/-- C4 (witness): jail `/jail` and the outside virtual path `/a`; the round
trip recovers `/a`. -/
theorem roundTrip_outside_witness :
    stripJail (mkAbs [['j', 'a', 'i', 'l']])
        (EnsureInJail (mkAbs [['j', 'a', 'i', 'l']]) (mkAbs [['a']])) =
      mkAbs [['a']] :=
  roundTrip_outside [['j', 'a', 'i', 'l']] [['a']] (by decide) (by decide)
    (by decide)

theorem ensureInitialized_id (o : HostOracle) (s : OsFSState)
    (h : trimSpace s.wd ≠ []) : ensureInitialized o s = s := by
  unfold ensureInitialized
  rw [if_pos h]

/-- C10: with a non-empty jail (a cleaned absolute path) set and symlink
following not requested, `resolveVirtual` never returns the escape error for
an input whose cleaned virtual path has no component beginning with the two
characters `..`: parent traversal is clamped by cleaning, and the resolved
virtual path is returned. -/
theorem resolveVirtual_no_escape (o : HostOracle) (s : OsFSState) (p : GoStr)
    (js : List GoStr) (hjail : s.jail = mkAbs js) (hjs : GoodComps js)
    (hwd : trimSpace s.wd ≠ [])
    (hdd : ∀ c ∈ pathComponents (c10Virtual s p), dd.isPrefixOf c = false) :
    (resolveVirtualNF o s p).2 = Except.ok (c10Virtual s p) := by
  have hjne : s.jail ≠ [] := by
    rw [hjail]; exact mkAbs_ne_nil js
  have hin : IsInJail s.jail (cleanPath (joinPath2 s.jail (c10Virtual s p))) = true := by
    rw [hjail]
    exact (IsInJail_clean_join js hjs (c10Virtual s p) hdd).1
  unfold resolveVirtualNF
  rw [ensureInitialized_id o s hwd]
  show (if s.jail = []
      then ((s, Except.ok (c10Virtual s p)) : OsFSState × Except GoStr GoStr)
      else if IsInJail s.jail (cleanPath (joinPath2 s.jail (c10Virtual s p)))
      then (s, Except.ok (c10Virtual s p))
      else (s, Except.error ("resolve path outside jail: escape attempt".toList))).2 =
    Except.ok (c10Virtual s p)
  rw [if_neg hjne, if_pos hin]

/-- C10 (witness): in the jail `/j` with working directory `/home/testuser`,
the relative input `../../../escape.txt` resolves successfully to the
virtual path `/escape.txt` instead of failing with the escape condition. -/
theorem resolveVirtual_no_escape_witness :
    (resolveVirtualNF oAbsent sC10 ("../../../escape.txt".toList)).2 =
      Except.ok ("/escape.txt".toList) := by
  have h := resolveVirtual_no_escape oAbsent sC10 ("../../../escape.txt".toList)
    [['j']] (by decide) (by decide) (by decide) (by decide)
  rw [h]
  have hv : c10Virtual sC10 ("../../../escape.txt".toList) =
      "/escape.txt".toList := by decide
  rw [hv]

theorem resolveVirtualNF_fst (o : HostOracle) (s : OsFSState) (p : GoStr) :
    (resolveVirtualNF o s p).1 = ensureInitialized o s := by
  unfold resolveVirtualNF
  dsimp only
  repeat' split
  all_goals rfl

/-- C3 (counterexample): `Setwd` on an `OsFS` whose stored working directory
is still empty (jailed, never initialized) and whose host reports a regular
file: the call fails with the not-a-directory error, yet the stored working
directory changes from the empty string to `/`, lazily initialized inside
the failed resolution. -/
theorem setwd_lazyInit_cx :
    (SetwdM oAllFiles sUninit ("x".toList)).2 = some SetwdErr.notADirectory ∧
    (SetwdM oAllFiles sUninit ("x".toList)).1.wd = "/".toList ∧
    sUninit.wd = [] ∧ "/".toList ≠ sUninit.wd := by
  refine ⟨by decide, by decide, by decide, by decide⟩

/-- C3 (amended): `Setwd` resolves its argument; when resolution succeeds,
an existing host entry that is not a directory fails the call with the
not-a-directory error, a missing host path is still accepted (as is a
directory), and the resolved path is committed only on success.  Whenever
the call returns an error, the stored working directory is what it was
before the call — except that a previously-uninitialized (blank) working
directory may have been lazily initialized to its default during resolution,
as the counterexample shows; for an already-initialized working directory
the error leaves it exactly unchanged. -/
theorem setwd_error_behavior (o : HostOracle) (s : OsFSState) (p : GoStr) :
    (∀ s1 res, resolveVirtualNF o s p = (s1, Except.ok res) →
      (o.stat (hostPath s1 res) = HostStat.file →
        SetwdM o s p = (s1, some SetwdErr.notADirectory)) ∧
      (o.stat (hostPath s1 res) = HostStat.notExist →
        SetwdM o s p = ({ s1 with wd := res }, none)) ∧
      (o.stat (hostPath s1 res) = HostStat.dir →
        SetwdM o s p = ({ s1 with wd := res }, none))) ∧
    (trimSpace s.wd ≠ [] →
      ∀ s2 e, SetwdM o s p = (s2, some e) → s2.wd = s.wd) := by
  constructor
  · intro s1 res hres
    refine ⟨?_, ?_, ?_⟩ <;> intro hstat <;>
      (unfold SetwdM
       rw [hres]) <;>
      (show (match o.stat (hostPath s1 res) with
        | HostStat.statErr => ((s1, some SetwdErr.statError) :
            OsFSState × Option SetwdErr)
        | HostStat.file => (s1, some SetwdErr.notADirectory)
        | HostStat.notExist => ({ s1 with wd := res }, none)
        | HostStat.dir => ({ s1 with wd := res }, none)) = _) <;>
      rw [hstat]
  · intro hwd s2 e heq
    have hfst : (resolveVirtualNF o s p).1 = s := by
      rw [resolveVirtualNF_fst, ensureInitialized_id o s hwd]
    rcases hres : resolveVirtualNF o s p with ⟨s1, r⟩
    have hs1 : s1 = s := by rw [← hfst, hres]
    subst hs1
    cases r with
    | error err =>
      unfold SetwdM at heq
      rw [hres] at heq
      have heq2 : ((s1, some SetwdErr.escape) : OsFSState × Option SetwdErr) =
          (s2, some e) := heq
      rw [show s2 = s1 from (congrArg Prod.fst heq2).symm]
    | ok res =>
      unfold SetwdM at heq
      rw [hres] at heq
      have heq2 : (match o.stat (hostPath s1 res) with
        | HostStat.statErr => ((s1, some SetwdErr.statError) :
            OsFSState × Option SetwdErr)
        | HostStat.file => (s1, some SetwdErr.notADirectory)
        | HostStat.notExist => ({ s1 with wd := res }, none)
        | HostStat.dir => ({ s1 with wd := res }, none)) = (s2, some e) := heq
      cases hstat : o.stat (hostPath s1 res) <;> rw [hstat] at heq2
      · exact absurd (congrArg Prod.snd heq2) (by simp)
      · exact absurd (congrArg Prod.snd heq2) (by simp)
      · rw [show s2 = s1 from (congrArg Prod.fst heq2).symm]
      · rw [show s2 = s1 from (congrArg Prod.fst heq2).symm]

/-- C3 (witness): in the jailed state with working directory
`/home/testuser`, `Setwd "x"` on a host where `x` is a regular file fails
with the not-a-directory error and leaves the working directory exactly
unchanged. -/
theorem setwd_error_behavior_witness :
    SetwdM oAllFiles sC10 ("x".toList) = (sC10, some SetwdErr.notADirectory) ∧
    (SetwdM oAllFiles sC10 ("x".toList)).1.wd = sC10.wd := by
  have h := setwd_error_behavior oAllFiles sC10 ("x".toList)
  have h1 := (h.1 sC10 ("/home/testuser/x".toList) (by rfl)).1 (by decide)
  refine ⟨h1, ?_⟩
  have h2 := h.2 (by decide) sC10 SetwdErr.notADirectory h1
  rw [h1]

/-- C2: atomic write leaves the destination either with its prior content
(on any failure) or with exactly the new content (on success), never a mix;
once the temporary sibling file has been created it is gone on every exit
path; and with every step succeeding except the best-effort chmod, the
operation still succeeds with the new content in place. -/
theorem atomicWriteFile_atomic (o : AtomicOracle) (s : AtomicState)
    (data : List Nat) :
    ((atomicWriteFile o s data).1.dest = s.dest ∨
      (atomicWriteFile o s data).1.dest = some data) ∧
    ((atomicWriteFile o s data).2 = true →
      (atomicWriteFile o s data).1.dest = s.dest) ∧
    ((atomicWriteFile o s data).2 = false →
      (atomicWriteFile o s data).1.dest = some data) ∧
    (o.mkdirOk = true → o.createOk = true →
      (atomicWriteFile o s data).1.tmp = none) ∧
    (o.mkdirOk = true → o.createOk = true → o.writeOk = true →
      o.closeOk = true → o.renameOk = true →
      (atomicWriteFile o s data).2 = false ∧
      (atomicWriteFile o s data).1.dest = some data) := by
  rcases o with ⟨mk, cr, wr, cl, ch, rn, hw⟩
  cases mk <;> cases cr <;> cases wr <;> cases cl <;> cases rn <;>
    simp [atomicWriteFile]

/-- C2 (witness): with chmod failing and everything else succeeding the
write succeeds and installs the new content; with the write step failing the
destination keeps its prior content and the temporary file is gone. -/
theorem atomicWriteFile_atomic_witness :
    ((atomicWriteFile ⟨true, true, true, true, false, true, []⟩
        ⟨some [1], none⟩ [2]).2 = false ∧
      (atomicWriteFile ⟨true, true, true, true, false, true, []⟩
        ⟨some [1], none⟩ [2]).1.dest = some [2]) ∧
    (atomicWriteFile ⟨true, true, false, true, true, true, [9]⟩
        ⟨some [1], none⟩ [2]).1.dest = some [1] ∧
    (atomicWriteFile ⟨true, true, false, true, true, true, [9]⟩
        ⟨some [1], none⟩ [2]).1.tmp = none := by
  refine ⟨?_, ?_, ?_⟩
  · exact (atomicWriteFile_atomic ⟨true, true, true, true, false, true, []⟩
      ⟨some [1], none⟩ [2]).2.2.2.2 rfl rfl rfl rfl rfl
  · exact (atomicWriteFile_atomic ⟨true, true, false, true, true, true, [9]⟩
      ⟨some [1], none⟩ [2]).2.1 (by decide)
  · exact (atomicWriteFile_atomic ⟨true, true, false, true, true, true, [9]⟩
      ⟨some [1], none⟩ [2]).2.2.2.1 rfl rfl

/-- C5: path resolution follows the tilde-expand, join-against-working-
directory, cleanPath algorithm.  With the environment reporting home
`/home/testuser`, resolving `~/a.txt` yields the virtual path
`/home/testuser/a.txt`; with working directory `/home/testuser/.config/app`,
resolving `../../repos/x` yields `/home/testuser/repos/x`. -/
theorem resolvePath_scenarios :
    rtC5a.env.GetHome = Except.ok ("/home/testuser".toList) ∧
    RuntimeResolvePathNF oAbsent rtC5a ("~/a.txt".toList) =
      Except.ok ("/home/testuser/a.txt".toList) ∧
    RuntimeResolvePathNF oAbsent rtC5b ("../../repos/x".toList) =
      Except.ok ("/home/testuser/repos/x".toList) := by
  refine ⟨by rfl, by rfl, by rfl⟩

/-- C8: the two-stage pipeline whose first stage writes the lines `alpha`,
`beta`, `gamma` and whose second stage uppercases each input line behind a
`C:` tag captures exactly the bytes `C:ALPHA\nC:BETA\nC:GAMMA\n` (stage 2
observes stage 1's bytes in write order through the pipe), with no error
and exit code 0. -/
theorem pipeline_two_stage_output :
    (PipelineRunM false twoStagePipeline).stdout =
      "C:ALPHA\nC:BETA\nC:GAMMA\n".toList ∧
    (PipelineRunM false twoStagePipeline).errs = [] ∧
    (PipelineRunM false twoStagePipeline).exitCode = 0 := by
  refine ⟨by rfl, by rfl, by rfl⟩

/-- C6: running a pipeline with zero stages yields exit code 1 and the
`no stages` error without running anything; for a non-empty stage list,
if some stage's runner returns an error the result's error is the join of
every stage error (an error string belongs to the joined result exactly
when some stage produced it) and the exit code is 1; if every stage error
is nil the exit code is 0 and the error is nil. -/
theorem pipeline_aggregation (p : PipelineM) :
    (p.stages = [] →
      PipelineRunM false p = ⟨["pipeline: no stages".toList], 1, [], []⟩) ∧
    (p.stages ≠ [] →
      ((∀ r ∈ runStagesData p.stages [], r.failure = none) →
        (PipelineRunM false p).exitCode = 0 ∧ (PipelineRunM false p).errs = []) ∧
      ((∃ r ∈ runStagesData p.stages [], r.failure ≠ none) →
        (PipelineRunM false p).exitCode = 1) ∧
      (∀ e, e ∈ (PipelineRunM false p).errs ↔
        ∃ r ∈ runStagesData p.stages [], r.failure = some e)) := by
  rcases p with ⟨stages, b1, b2⟩
  cases stages with
  | nil =>
    refine ⟨fun _ => rfl, fun h => absurd rfl h⟩
  | cons s0 rest =>
    constructor
    · intro h
      exact nomatch h
    · intro _
      refine ⟨?_, ?_, ?_⟩
      · intro hall
        have hnil : (runStagesData (s0 :: rest) []).filterMap StageOutcome.failure
            = [] := by
          rw [List.filterMap_eq_nil_iff]
          exact hall
        constructor
        · show (if (runStagesData (s0 :: rest) []).filterMap StageOutcome.failure
              = [] then 0 else 1) = 0
          rw [if_pos hnil]
        · show (runStagesData (s0 :: rest) []).filterMap StageOutcome.failure = []
          exact hnil
      · rintro ⟨r, hr, hfail⟩
        rcases Option.ne_none_iff_exists'.mp hfail with ⟨e, he⟩
        have hmem : e ∈ (runStagesData (s0 :: rest) []).filterMap
            StageOutcome.failure :=
          List.mem_filterMap.mpr ⟨r, hr, he⟩
        show (if (runStagesData (s0 :: rest) []).filterMap StageOutcome.failure
            = [] then 0 else 1) = 1
        rw [if_neg (List.ne_nil_of_mem hmem)]
      · intro e
        show e ∈ (runStagesData (s0 :: rest) []).filterMap StageOutcome.failure ↔ _
        exact List.mem_filterMap

/-- C6 (witness): the empty pipeline returns the `no stages` error with exit
code 1; a three-stage pipeline with two failing stages has exit code 1 and
both stage errors present in the joined error. -/
theorem pipeline_aggregation_witness :
    PipelineRunM false pEmpty = ⟨["pipeline: no stages".toList], 1, [], []⟩ ∧
    (PipelineRunM false pMix).exitCode = 1 ∧
    "boom".toList ∈ (PipelineRunM false pMix).errs ∧
    "bang".toList ∈ (PipelineRunM false pMix).errs := by
  have hne : pMix.stages ≠ [] := fun h => nomatch h
  refine ⟨(pipeline_aggregation pEmpty).1 rfl, ?_, ?_, ?_⟩
  · exact ((pipeline_aggregation pMix).2 hne).2.1 (by decide)
  · exact (((pipeline_aggregation pMix).2 hne).2.2 ("boom".toList)).mpr (by decide)
  · exact (((pipeline_aggregation pMix).2 hne).2.2 ("bang".toList)).mpr (by decide)

/-- C7 (counterexample): the claim fails as stated — on the single-stage
pipeline of `TestPipeline_SingleStage` the caller never invokes
`CaptureStdout`/`CaptureStderr`, yet the result returned by `Run` carries
the final stage's full output, because `Run` allocates the pipeline-level
buffers itself and redirects the final stage into them. -/
theorem pipeline_capture_cx :
    pNoCapture.outBufRequested = false ∧ pNoCapture.errBufRequested = false ∧
    (PipelineRunM false pNoCapture).stdout = "single stage output\n".toList ∧
    (PipelineRunM false pNoCapture).stdout ≠ [] := by
  refine ⟨rfl, rfl, by rfl, by decide⟩

/-- C7 (amended): the bytes `Run` returns are independent of whether the
pipeline-level capture accessors were ever invoked (`Run` allocates the
buffers itself when absent), and whenever the final stage has no explicit
output (resp. error) writer configured, the result carries exactly the
bytes the final stage wrote to its stdout (resp. stderr); the captured
bytes are empty only when an explicit final-stage writer diverted them. -/
theorem pipeline_capture_amended (s0 : StageSpecM) (rest : List StageSpecM)
    (b1 b2 b3 b4 : Bool) :
    PipelineRunM false ⟨s0 :: rest, b1, b2⟩ =
      PipelineRunM false ⟨s0 :: rest, b3, b4⟩ ∧
    (((s0 :: rest).getLastD s0).explicitOut = false →
      (PipelineRunM false ⟨s0 :: rest, b1, b2⟩).stdout =
        ((runStagesData (s0 :: rest) []).getLastD default).outBytes) ∧
    (((s0 :: rest).getLastD s0).explicitErr = false →
      (PipelineRunM false ⟨s0 :: rest, b1, b2⟩).stderr =
        ((runStagesData (s0 :: rest) []).getLastD default).errBytes) := by
  refine ⟨rfl, ?_, ?_⟩
  · intro hx
    show (if ((s0 :: rest).getLastD s0).explicitOut = true then []
      else ((runStagesData (s0 :: rest) []).getLastD default).outBytes) = _
    rw [hx]
    simp
  · intro hx
    show (if ((s0 :: rest).getLastD s0).explicitErr = true then []
      else ((runStagesData (s0 :: rest) []).getLastD default).errBytes) = _
    rw [hx]
    simp

/-- C7 (witness): applying the amended statement to the uncaptured
single-stage pipeline: its result equals the captured variant's result, and
its stdout is the producer's full output. -/
theorem pipeline_capture_amended_witness :
    PipelineRunM false ⟨pNoCapture.stages, false, false⟩ =
      PipelineRunM false ⟨pNoCapture.stages, true, true⟩ ∧
    (PipelineRunM false ⟨pNoCapture.stages, false, false⟩).stdout =
      ((runStagesData pNoCapture.stages []).getLastD default).outBytes := by
  have h := pipeline_capture_amended
    (producerStage ["single stage output".toList]) [] false false true true
  exact ⟨h.1, h.2.1 (by rfl)⟩

theorem listGetD_set_ne {α : Type} [Inhabited α] :
    ∀ (l : List α) (i j : Nat) (x : α), i ≠ j →
      (l.set i x).getD j default = l.getD j default := by
  intro l
  induction l with
  | nil => intro i j x _; simp
  | cons a t ih =>
    intro i j x hij
    cases i with
    | zero =>
      cases j with
      | zero => exact absurd rfl hij
      | succ j2 => simp [List.set]
    | succ i2 =>
      cases j with
      | zero => simp [List.set]
      | succ j2 =>
        have h2 : i2 ≠ j2 := fun hh => hij (by rw [hh])
        simpa [List.set] using ih i2 j2 x h2

theorem listGetD_append_left {α : Type} [Inhabited α] :
    ∀ (l m : List α) (i : Nat), i < l.length →
      (l ++ m).getD i default = l.getD i default := by
  intro l
  induction l with
  | nil => intro m i h; simp at h
  | cons a t ih =>
    intro m i h
    cases i with
    | zero => simp
    | succ i2 =>
      have h2 : i2 < t.length := by
        simpa using h
      simpa using ih m i2 h2

/-- C9: cloning a runtime whose environment supports deep cloning isolates
the mutable state and shares the rest: the clone references the same clock,
logger, hasher (and filesystem) cells; its environment reference is a fresh
cell, so a variable set through the clone's environment leaves the
original's values unchanged and vice versa; and its stream reference is a
fresh cell, so replacing the clone's stream set leaves the original's
stream set unchanged. -/
theorem runtime_clone_isolation (h : Heap) (rt : RuntimeRefs) (k v : GoStr)
    (st : StreamM) (henv : rt.envRef < h.envs.length)
    (hstr : rt.streamRef < h.streams.length) :
    ((RuntimeCloneM h rt).2.clockRef = rt.clockRef ∧
     (RuntimeCloneM h rt).2.loggerRef = rt.loggerRef ∧
     (RuntimeCloneM h rt).2.hasherRef = rt.hasherRef ∧
     (RuntimeCloneM h rt).2.fsRef = rt.fsRef) ∧
    (RuntimeCloneM h rt).2.envRef ≠ rt.envRef ∧
    (RuntimeCloneM h rt).2.streamRef ≠ rt.streamRef ∧
    heapEnvGet (heapEnvSet (RuntimeCloneM h rt).1 (RuntimeCloneM h rt).2.envRef k v)
        rt.envRef k = heapEnvGet (RuntimeCloneM h rt).1 rt.envRef k ∧
    heapEnvGet (heapEnvSet (RuntimeCloneM h rt).1 rt.envRef k v)
        (RuntimeCloneM h rt).2.envRef k =
      heapEnvGet (RuntimeCloneM h rt).1 (RuntimeCloneM h rt).2.envRef k ∧
    heapStreamGet
        (heapStreamSet (RuntimeCloneM h rt).1 (RuntimeCloneM h rt).2.streamRef st)
        rt.streamRef =
      heapStreamGet (RuntimeCloneM h rt).1 rt.streamRef := by
  have henvne : (RuntimeCloneM h rt).2.envRef ≠ rt.envRef := by
    show h.envs.length ≠ rt.envRef
    omega
  have hstrne : (RuntimeCloneM h rt).2.streamRef ≠ rt.streamRef := by
    show h.streams.length ≠ rt.streamRef
    omega
  refine ⟨⟨rfl, rfl, rfl, rfl⟩, henvne, hstrne, ?_, ?_, ?_⟩
  · unfold heapEnvGet heapEnvSet
    exact congrArg (fun l => (TestEnvData.get l k))
      (listGetD_set_ne _ (RuntimeCloneM h rt).2.envRef rt.envRef _ henvne)
  · unfold heapEnvGet heapEnvSet
    exact congrArg (fun l => (TestEnvData.get l k))
      (listGetD_set_ne _ rt.envRef (RuntimeCloneM h rt).2.envRef _
        (fun hh => henvne hh.symm))
  · unfold heapStreamGet heapStreamSet
    exact listGetD_set_ne _ (RuntimeCloneM h rt).2.streamRef rt.streamRef _ hstrne

/-- C9 (witness): a one-cell heap; the clone gets fresh environment and
stream cells while sharing the clock, logger and hasher references, and a
set through the clone does not change the original's view. -/
theorem runtime_clone_isolation_witness :
    (RuntimeCloneM hW rtW).2.clockRef = rtW.clockRef ∧
    (RuntimeCloneM hW rtW).2.envRef ≠ rtW.envRef ∧
    (RuntimeCloneM hW rtW).2.streamRef ≠ rtW.streamRef ∧
    heapEnvGet
        (heapEnvSet (RuntimeCloneM hW rtW).1 (RuntimeCloneM hW rtW).2.envRef
          ("K".toList) ("V".toList))
        rtW.envRef ("K".toList) =
      heapEnvGet (RuntimeCloneM hW rtW).1 rtW.envRef ("K".toList) := by
  have h := runtime_clone_isolation hW rtW ("K".toList) ("V".toList)
    ⟨9, 9, 9, true, true⟩ (by decide) (by decide)
  exact ⟨h.1.1, h.2.1, h.2.2.1, h.2.2.2.1⟩
